import Mathlib

/-!
# ZATCA QR payload decoder and scanning pipeline: a verification development

This file embeds the core of the ZATCA QR scanner repository:

* the QR Payload Decoder & Validator (base64 decoding, TLV tokenization,
  field mapping/validation) — this component's source is not included in the
  repository snapshot (only its caller `processQRCode` is), so it is modelled
  from the specification, definition by definition;
* the in-memory storage layer (`MemStorage`: `getScannedQRs`,
  `clearSessionQRs`, `getSessionStats`) — translated from the source;
* the Excel export filter stage of `exportToExcel` — translated from the
  source;
* the `processQRCode` record construction of the scanner component —
  translated from the source.

Text values travelling through the decoder are modelled as UTF-8 byte
sequences (`List Nat`, each entry a byte).  Fixed-point decimal currency
amounts are modelled as integer cents (`Nat` for the non-negative totals,
`Int` for the derived subtotal), so the spec value `115.00` is the model
value `11500`.
-/

/-- Modelled from the spec (§4.4): the single enumerated error type covering
all failure reasons of the three decoder components. -/
inductive ParseError where
  | invalidBase64 : ParseError
  | payloadTooLarge : ParseError
  | emptyPayload : ParseError
  | truncated : Nat → ParseError
  | missingTag : Nat → ParseError
  | invalidUtf8 : Nat → ParseError
  | notANumber : Nat → List Nat → ParseError
deriving DecidableEq, Repr

/-- Modelled from the spec (§3): one TLV record, a tag byte and its value
bytes. -/
structure TlvRecord where
  tag : Nat
  value : List Nat
deriving DecidableEq, Repr

/-- Modelled from the spec (§4.2): the TLV tokenizer loop.  `off` is the
current read offset (carried only for the `Truncated` diagnostics), `rem`
the bytes remaining from that offset. -/
def tokenizeGo (off : Nat) (rem : List Nat) : Except ParseError (List TlvRecord) :=
  match rem with
  | [] => .ok []
  | [_] => .error (.truncated off)
  | t :: l :: rest =>
    if rest.length < l then .error (.truncated off)
    else
      match tokenizeGo (off + 2 + l) (rest.drop l) with
      | .error e => .error e
      | .ok recs => .ok (⟨t, rest.take l⟩ :: recs)
termination_by rem.length
decreasing_by simp [List.length_drop]; omega

/-- Modelled from the spec (§4.2): tokenize a decoded byte buffer; an empty
buffer fails with `EmptyPayload`. -/
def tokenize (bytes : List Nat) : Except ParseError (List TlvRecord) :=
  if bytes.isEmpty then .error .emptyPayload else tokenizeGo 0 bytes

/-- Size in the source buffer of one TLV record: tag byte + length byte +
value bytes. -/
def recSize (r : TlvRecord) : Nat := 2 + r.value.length

/-- Total buffer size of a list of TLV records. -/
def recsSize (recs : List TlvRecord) : Nat := (recs.map recSize).sum

/-- Is `b` (a byte) a UTF-8 continuation byte? -/
def utf8Cont (b : Nat) : Bool := 0x80 ≤ b && b < 0xC0

/-- Modelled from the spec (§4.3, "decode value bytes as text" /
`InvalidUtf8`): structural UTF-8 validity of a byte sequence. -/
def utf8Valid : List Nat → Bool
  | [] => true
  | b :: rest =>
    if b < 0x80 then utf8Valid rest
    else if 0xC2 ≤ b && b < 0xE0 then
      match rest with
      | c1 :: r => utf8Cont c1 && utf8Valid r
      | [] => false
    else if 0xE0 ≤ b && b < 0xF0 then
      match rest with
      | c1 :: c2 :: r => utf8Cont c1 && utf8Cont c2 && utf8Valid r
      | _ => false
    else if 0xF0 ≤ b && b < 0xF5 then
      match rest with
      | c1 :: c2 :: c3 :: r => utf8Cont c1 && utf8Cont c2 && utf8Cont c3 && utf8Valid r
      | _ => false
    else false

/-- ASCII digit test on a byte. -/
def isDigitByte (b : Nat) : Bool := 48 ≤ b && b ≤ 57

/-- Decimal digit bytes of a natural number, most significant first
(`"0"` for zero). -/
def natToBytes (m : Nat) : List Nat :=
  if m = 0 then [48] else ((Nat.digits 10 m).map (· + 48)).reverse

/-- Modelled from the spec (§3, §4.3): render a non-negative fixed-point
decimal amount (in cents) as decimal text bytes with exactly two fractional
digits, e.g. `11500 ↦ "115.00"`. -/
def renderDecimal (v : Nat) : List Nat :=
  natToBytes (v / 100) ++ [46, v % 100 / 10 + 48, v % 100 % 10 + 48]

/-- Modelled from the spec (§4.3): parse text bytes as a non-negative
fixed-point decimal amount in cents.  Accepts `digits`, `digits.d` and
`digits.dd`. -/
def parseDecimal (bs : List Nat) : Option Nat :=
  let intPart := bs.takeWhile isDigitByte
  let rest := bs.dropWhile isDigitByte
  if intPart = [] then none
  else
    let iv := Nat.ofDigits 10 ((intPart.map (· - 48)).reverse)
    match rest with
    | [] => some (iv * 100)
    | 46 :: [d1] => if isDigitByte d1 then some (iv * 100 + (d1 - 48) * 10) else none
    | 46 :: [d1, d2] =>
      if isDigitByte d1 && isDigitByte d2 then
        some (iv * 100 + (d1 - 48) * 10 + (d2 - 48))
      else none
    | _ => none

/-- Modelled from the spec (§4.3): field-level anomaly descriptors attached
to an otherwise valid invoice. -/
inductive Warning where
  | suspiciousVatNumber : Warning
  | inconsistentAmounts : Warning
deriving DecidableEq, Repr

/-- Modelled from the spec (§3): the validated invoice record.  Text fields
are UTF-8 byte sequences; the two totals are cents; `subtotal` is the
derived (possibly negative) difference in cents. -/
structure ParsedInvoice where
  sellerName : List Nat
  vatNumber : List Nat
  timestamp : List Nat
  invoiceTotal : Nat
  vatTotal : Nat
  subtotal : Int
  extendedTags : List (Nat × List Nat)
  warnings : List Warning
deriving DecidableEq, Repr

/-- First occurrence of tag `t` in a TLV sequence (later duplicates are
ignored, spec §4.3). -/
def findTag (recs : List TlvRecord) (t : Nat) : Option (List Nat) :=
  match recs with
  | [] => none
  | r :: rest => if r.tag = t then some r.value else findTag rest t

/-- Modelled from the spec (§4.3): decode the value of text tag `t`:
missing tag or invalid UTF-8 are the failure modes. -/
def decodeText (t : Nat) (recs : List TlvRecord) : Except ParseError (List Nat) :=
  match findTag recs t with
  | none => .error (.missingTag t)
  | some v => if utf8Valid v then .ok v else .error (.invalidUtf8 t)

/-- Modelled from the spec (§4.3): decode the value of amount tag `t` as a
non-negative fixed-point decimal; missing tag or unparsable text are the
failure modes. -/
def decodeAmount (t : Nat) (recs : List TlvRecord) : Except ParseError Nat :=
  match findTag recs t with
  | none => .error (.missingTag t)
  | some v =>
    match parseDecimal v with
    | some n => .ok n
    | none => .error (.notANumber t v)

/-- Is the VAT number exactly 15 ASCII digits (spec §4.3 advisory check)? -/
def isFifteenDigits (v : List Nat) : Bool := v.length = 15 && v.all isDigitByte

/-- Modelled from the spec (§4.3): the field mapper & validator.  Tags are
checked in order 1..5; the first missing or undecodable tag aborts with its
specific error; semantic checks only append warnings. -/
def mapFields (recs : List TlvRecord) : Except ParseError ParsedInvoice :=
  match decodeText 1 recs with
  | .error e => .error e
  | .ok seller =>
    if seller = [] then .error (.invalidUtf8 1)
    else
      match decodeText 2 recs with
      | .error e => .error e
      | .ok vat =>
        match decodeText 3 recs with
        | .error e => .error e
        | .ok ts =>
          match decodeAmount 4 recs with
          | .error e => .error e
          | .ok total =>
            match decodeAmount 5 recs with
            | .error e => .error e
            | .ok vatAmt =>
              .ok { sellerName := seller
                    vatNumber := vat
                    timestamp := ts
                    invoiceTotal := total
                    vatTotal := vatAmt
                    subtotal := (total : Int) - (vatAmt : Int)
                    extendedTags :=
                      (recs.filter (fun r => 6 ≤ r.tag)).map (fun r => (r.tag, r.value))
                    warnings :=
                      (if isFifteenDigits vat then [] else [.suspiciousVatNumber]) ++
                      (if total < vatAmt then [.inconsistentAmounts] else []) }

/-- The base64 alphabet, sextet value to character. -/
def b64Alphabet : List Char :=
  "ABCDEFGHIJKLMNOPQRSTUVWXYZabcdefghijklmnopqrstuvwxyz0123456789+/".toList

/-- Sextet (0..63) to base64 character. -/
def encB64 (n : Nat) : Char := b64Alphabet.getD n 'A'

/-- Base64 character to sextet; `none` for characters outside the
alphabet. -/
def decB64 (c : Char) : Option Nat := b64Alphabet.findIdx? (fun x => x = c)

/-- Modelled from the spec (§4.1 wire format): base64-encode a byte list as
a character list, with `=` padding. -/
def encodeB64Chars (bs : List Nat) : List Char :=
  match bs with
  | [] => []
  | [a] => [encB64 (a / 4), encB64 (a % 4 * 16), '=', '=']
  | [a, b] => [encB64 (a / 4), encB64 (a % 4 * 16 + b / 16), encB64 (b % 16 * 4), '=']
  | a :: b :: c :: rest =>
    encB64 (a / 4) :: encB64 (a % 4 * 16 + b / 16) :: encB64 (b % 16 * 4 + c / 64) ::
      encB64 (c % 64) :: encodeB64Chars rest

/-- Modelled from the spec (§4.1): base64-decode a character list; `none`
on characters outside the alphabet, wrong length, or incorrect padding. -/
def decodeB64Chars (cs : List Char) : Option (List Nat) :=
  match cs with
  | [] => some []
  | c1 :: c2 :: c3 :: c4 :: rest =>
    match decB64 c1, decB64 c2 with
    | some d1, some d2 =>
      if c3 = '=' then
        if c4 = '=' && rest.isEmpty then some [d1 * 4 + d2 / 16] else none
      else
        match decB64 c3 with
        | some d3 =>
          if c4 = '=' then
            if rest.isEmpty then some [d1 * 4 + d2 / 16, d2 % 16 * 16 + d3 / 4] else none
          else
            match decB64 c4 with
            | some d4 =>
              match decodeB64Chars rest with
              | some bs =>
                some ((d1 * 4 + d2 / 16) :: (d2 % 16 * 16 + d3 / 4) ::
                  (d3 % 4 * 64 + d4) :: bs)
              | none => none
            | none => none
        | none => none
    | _, _ => none
  | _ => none

/-- Whitespace characters trimmed before base64 decoding (spec §4.1). -/
def isWsChar (c : Char) : Bool := c = ' ' || c = '\n' || c = '\r' || c = '\t'

/-- Trim surrounding whitespace from a character list (spec §4.1). -/
def trimChars (l : List Char) : List Char :=
  ((l.dropWhile isWsChar).reverse.dropWhile isWsChar).reverse

/-- Modelled from the spec (§4.1): maximum accepted payload size in
characters ("a few kilobytes"). -/
def maxPayloadSize : Nat := 4096

/-- Modelled from the spec (§4.1): the base64 decoder component.  Oversized
input fails fast with `PayloadTooLarge`; bad characters, bad padding, or a
zero-byte result fail with `InvalidBase64`. -/
def decodeBase64 (s : String) : Except ParseError (List Nat) :=
  if maxPayloadSize < s.length then .error .payloadTooLarge
  else
    match decodeB64Chars (trimChars s.toList) with
    | none => .error .invalidBase64
    | some [] => .error .invalidBase64
    | some bs => .ok bs

/-- Base64-encode a byte list as a string (spec §8, round-trip scenario). -/
def encodeBase64 (bs : List Nat) : String := String.mk (encodeB64Chars bs)

/-- Modelled from the spec (§4.4): the top-level entry point composing the
three decoder stages. -/
def decodeQR (s : String) : Except ParseError ParsedInvoice :=
  match decodeBase64 s with
  | .error e => .error e
  | .ok bytes =>
    match tokenize bytes with
    | .error e => .error e
    | .ok recs => mapFields recs

/-- One TLV record on the wire: tag byte, length byte, value bytes
(spec §6). -/
def tlvBytes (t : Nat) (v : List Nat) : List Nat := t :: v.length :: v

/-- Modelled from the spec (§8, round trip): encode the five core fields of
a `ParsedInvoice` back into a TLV byte sequence. -/
def encodeInvoice (inv : ParsedInvoice) : List Nat :=
  tlvBytes 1 inv.sellerName ++ tlvBytes 2 inv.vatNumber ++ tlvBytes 3 inv.timestamp ++
    tlvBytes 4 (renderDecimal inv.invoiceTotal) ++ tlvBytes 5 (renderDecimal inv.vatTotal)

/-- Modelled from the spec (§9) and the caller in `processQRCode`
(src/unnamed/part_002): the decoder as seen by the scanning pipeline, a
nullable result (`Valid ↦ some`, `Invalid ↦ none`). -/
def parseZATCAQR (s : String) : Option ParsedInvoice := (decodeQR s).toOption

/-! ## Storage, export and pipeline layer (translated from the source) -/

/-- A scan session (`ScanSession` from the shared schema, fields as used by
`MemStorage` in src/unnamed/part_000). -/
structure ScanSession where
  id : Nat
  sessionId : String
  createdAt : Int
deriving DecidableEq, Repr

/-- A stored scanned QR record (`ScannedQR` from the shared schema, fields
as used by src/unnamed/part_000 and part_001).  Nullable columns are
`Option String`; `scannedAt` is an epoch timestamp. -/
structure ScannedQR where
  id : Nat
  sessionId : String
  rawData : String
  status : String
  sellerName : Option String
  vatNumber : Option String
  invoiceNumber : Option String
  invoiceDate : Option String
  subtotal : Option String
  vatAmount : Option String
  totalAmount : Option String
  scannedAt : Int
deriving DecidableEq, Repr

/-- The `MemStorage` state of src/unnamed/part_000: two keyed maps,
modelled as association lists (`sessions` keyed by sessionId, `qrs` keyed
by numeric id). -/
structure MemStorageState where
  sessions : List (String × ScanSession)
  qrs : List (Nat × ScannedQR)
deriving DecidableEq, Repr

/-- Translation of `getScannedQRs` (src/unnamed/part_000 lines 69-73): the records of one
session, sorted by `scannedAt` descending. -/
def getScannedQRs (qrs : List ScannedQR) (sid : String) : List ScannedQR :=
  (qrs.filter (fun qr => decide (qr.sessionId = sid))).mergeSort
    (fun a b => decide (b.scannedAt ≤ a.scannedAt))

/-- The string actually fed to `parseFloat` by `getSessionStats`:
`qr.totalAmount || '0'` maps both `null` and the empty string to `"0"`. -/
def orZeroStr (o : Option String) : String :=
  match o with
  | none => "0"
  | some s => if s = "" then "0" else s

/-- The statistics record returned by `getSessionStats`
(src/unnamed/part_000 lines 88-103).  The amount field is parametric in the
number parser `pf` standing for JS `parseFloat` (its numeric semantics are
irrelevant to the aggregation structure verified here; amounts are carried
in `ℚ`). -/
structure SessionStats where
  totalScans : Nat
  validScans : Nat
  totalAmount : ℚ
  errors : Nat
deriving DecidableEq, Repr

/-- Translation of `getSessionStats` (src/unnamed/part_000 lines 88-103),
line by line: fetch the session's records, filter the valid ones, count and
sum. -/
def getSessionStats (pf : String → ℚ) (qrs : List ScannedQR) (sid : String) : SessionStats :=
  let l := getScannedQRs qrs sid
  let validQRs := l.filter (fun qr => decide (qr.status = "valid"))
  { totalScans := l.length
    validScans := validQRs.length
    totalAmount := (validQRs.map (fun qr => pf (orZeroStr qr.totalAmount))).sum
    errors := (l.filter (fun qr => decide (qr.status = "invalid"))).length }

/-- Translation of `clearSessionQRs` (src/unnamed/part_000 lines 79-86): collect the ids
of the session's records, delete each collected id from the map, return
`true`. -/
def clearSessionQRs (st : MemStorageState) (sid : String) : MemStorageState × Bool :=
  let qrsToDelete :=
    (st.qrs.filter (fun e => decide (e.2.sessionId = sid))).map (fun e => e.1)
  ({ st with
      qrs := qrsToDelete.foldl (fun m i => m.filter (fun e => decide (e.1 ≠ i))) st.qrs },
   true)

/-- The export range of `ExportOptions` (src/unnamed/part_001). -/
inductive ExportRange where
  | all : ExportRange
  | selected : ExportRange
  | valid : ExportRange
deriving DecidableEq, Repr

/-- Translation of `ExportOptions` (src/unnamed/part_001 lines 4-9); `selectedIds` is
optional. -/
structure ExportOptions where
  filename : String
  includeHeaders : Bool
  exportRange : ExportRange
  selectedIds : Option (List Nat)
deriving DecidableEq, Repr

/-- The filter stage of `exportToExcel` (src/unnamed/part_001 lines 15-30):
the `dataToExport` selection.  `selected` with absent `selectedIds` leaves
the data unfiltered; `valid` keeps records with status `valid`. -/
def selectExport (qrCodes : List ScannedQR) (options : ExportOptions) : List ScannedQR :=
  match options.exportRange with
  | .selected =>
    match options.selectedIds with
    | some ids => qrCodes.filter (fun qr => ids.contains qr.id)
    | none => qrCodes
  | .valid => qrCodes.filter (fun qr => decide (qr.status = "valid"))
  | .all => qrCodes

/-- The record inserted by `processQRCode` (`InsertScannedQR`,
src/unnamed/part_002 lines 104-115); invoice text and number columns are
nullable.  Text and numeric values originate from the decoder and are
carried as UTF-8 byte lists resp. rendered strings. -/
structure InsertScannedQR where
  sessionId : String
  rawData : String
  status : String
  sellerName : Option (List Nat)
  vatNumber : Option (List Nat)
  invoiceNumber : Option (List Nat)
  invoiceDate : Option (List Nat)
  subtotal : Option String
  vatAmount : Option String
  totalAmount : Option String
deriving DecidableEq, Repr

/-- JS `x || null` on a string value: the empty string is falsy and
coalesces to `null`. -/
def orNull (s : List Nat) : Option (List Nat) :=
  if s = [] then none else some s

/-- JS `Number.prototype.toString` as used on the parsed amounts in
`processQRCode`; the resulting string is never empty, which is all the
claims depend on. -/
def numToString (i : Int) : String := toString i

/-- The record construction of `processQRCode` (src/unnamed/part_002
lines 102-115), translated field by field: parse, then build the insert
record with `||`-coalesced fields.  The parser's `timestamp`, `invoiceTotal`
and `vatTotal` feed the caller's `invoiceDate`, `totalAmount` and
`vatAmount` columns; the parser exposes no `invoiceNumber`, so that column
is always null. -/
def buildQRRecord (sessionId : String) (qrData : String) : InsertScannedQR :=
  match parseZATCAQR qrData with
  | some p =>
    { sessionId := sessionId
      rawData := qrData
      status := "valid"
      sellerName := orNull p.sellerName
      vatNumber := orNull p.vatNumber
      invoiceNumber := none
      invoiceDate := orNull p.timestamp
      subtotal := some (numToString p.subtotal)
      vatAmount := some (numToString p.vatTotal)
      totalAmount := some (numToString p.invoiceTotal) }
  | none =>
    { sessionId := sessionId
      rawData := qrData
      status := "invalid"
      sellerName := none
      vatNumber := none
      invoiceNumber := none
      invoiceDate := none
      subtotal := none
      vatAmount := none
      totalAmount := none }

/-! ## Tokenizer lemmas -/

/-- On structural success the tokenizer loop consumes exactly the remaining
bytes: the record sizes sum to the length of the input. -/
theorem tokenizeGo_ok_size (off : Nat) (rem : List Nat) :
    ∀ recs, tokenizeGo off rem = .ok recs → recsSize recs = rem.length := by
  induction off, rem using tokenizeGo.induct with
  | case1 off =>
    intro recs h
    simp [tokenizeGo] at h
    subst h
    simp [recsSize]
  | case2 off b =>
    intro recs h
    simp [tokenizeGo] at h
  | case3 off t l rest hlt =>
    intro recs h
    simp [tokenizeGo, if_pos hlt] at h
  | case4 off t l rest hge e heq ih =>
    intro recs h
    rw [tokenizeGo, if_neg hge, heq] at h
    exact absurd h (by simp)
  | case5 off t l rest hge recs' heq ih =>
    intro recs h
    rw [tokenizeGo, if_neg hge, heq] at h
    have hrecs : recs = ⟨t, rest.take l⟩ :: recs' := by
      cases h
      rfl
    subst hrecs
    have hsum := ih recs' heq
    have hlen : (rest.take l).length = l := by
      simp [List.length_take]
      omega
    have hdlen : (rest.drop l).length = rest.length - l := by
      simp
    rw [hdlen] at hsum
    simp only [recsSize, recSize, List.map_cons, List.sum_cons, List.length_cons, hlen]
    simp only [recsSize] at hsum
    omega

/-- Truncating the byte stream strictly inside a record makes the tokenizer
loop report `Truncated`: if the loop succeeds on `rem` and `m` retained
bytes do not land on a record boundary, the loop fails on `rem.take m` with
a `Truncated` error. -/
theorem tokenizeGo_truncated (off : Nat) (rem : List Nat) :
    ∀ recs, tokenizeGo off rem = .ok recs →
      ∀ m, 0 < m → m < rem.length →
        (∀ k, k ≤ recs.length → recsSize (recs.take k) ≠ m) →
        ∃ off2, tokenizeGo off (rem.take m) = .error (.truncated off2) := by
  induction off, rem using tokenizeGo.induct with
  | case1 off =>
    intro recs h m hm hmlt hk
    simp at hmlt
  | case2 off b =>
    intro recs h
    simp [tokenizeGo] at h
  | case3 off t l rest hlt =>
    intro recs h
    simp [tokenizeGo, if_pos hlt] at h
  | case4 off t l rest hge e heq ih =>
    intro recs h
    rw [tokenizeGo, if_neg hge, heq] at h
    exact absurd h (by simp)
  | case5 off t l rest hge recs' heq ih =>
    intro recs h m hm hmlt hk
    rw [tokenizeGo, if_neg hge, heq] at h
    have hrecs : recs = ⟨t, rest.take l⟩ :: recs' := by
      cases h
      rfl
    subst hrecs
    simp only [List.length_cons] at hmlt
    rcases Nat.lt_or_ge m 2 with hm2 | hm2
    · -- m = 1: only the tag byte remains
      have hm1 : m = 1 := by omega
      subst hm1
      exact ⟨off, by simp [tokenizeGo]⟩
    · -- m ≥ 2: the truncated stream still starts with a full header
      obtain ⟨m2, rfl⟩ : ∃ m2, m = m2 + 2 := ⟨m - 2, by omega⟩
      have htake : (t :: l :: rest).take (m2 + 2) = t :: l :: rest.take m2 := by
        simp [List.take_cons]
      rw [htake]
      have hm2len : (rest.take m2).length = m2 := by
        simp [List.length_take]
        omega
      rcases Nat.lt_or_ge m2 l with hml | hml
      · -- the cut falls inside this record's value bytes
        refine ⟨off, ?_⟩
        rw [tokenizeGo, if_pos (by omega)]
      · -- this record still parses whole; recurse into the tail
        rcases Nat.eq_or_lt_of_le hml with hml' | hml'
        · -- m = 2 + l is the size of the first record: a boundary, excluded
          exfalso
          have h1 := hk 1 (by simp)
          simp only [List.take_succ_cons, List.take_zero, recsSize, recSize,
            List.map_cons, List.map_nil, List.sum_cons, List.sum_nil,
            List.length_take] at h1
          omega
        · have hrec : tokenizeGo (off + 2 + l) ((rest.take m2).drop l) =
              tokenizeGo (off + 2 + l) ((rest.drop l).take (m2 - l)) := by
            rw [List.drop_take]
          obtain ⟨off2, h2⟩ :=
            ih recs' heq (m2 - l) (by omega)
              (by simp [List.length_drop]; omega)
              (by
                intro k hkle habs
                have h3 := hk (k + 1) (by simpa using Nat.succ_le_succ hkle)
                simp only [List.take_succ_cons, recsSize, recSize, List.map_cons,
                  List.sum_cons, List.length_take] at h3
                simp only [recsSize] at habs
                omega)
          refine ⟨off2, ?_⟩
          rw [tokenizeGo, if_neg (by omega), hrec, h2]

/-! ## C1: tokenizer bounds safety -/

/-- C1 (amended): for every byte buffer, the TLV tokenizer on structural
success consumes exactly the buffer's length (the sum of `2 + L` over all
emitted records equals the buffer length); and for every buffer obtained by
deleting trailing bytes from a well-formed TLV payload such that the cut
falls strictly inside a record (the retained length is positive and is not
the total size of a leading run of records), tokenization returns the
`Truncated` error.  (Truncation exactly at a record boundary instead yields
a successful parse of the leading records, and deleting all bytes yields
`EmptyPayload` — see the counterexample.) -/
theorem tokenize_consumes_all_and_detects_truncation (bytes : List Nat)
    (recs : List TlvRecord) (h : tokenize bytes = .ok recs) :
    recsSize recs = bytes.length ∧
    ∀ m, 0 < m → m < bytes.length →
      (∀ k, k ≤ recs.length → recsSize (recs.take k) ≠ m) →
      ∃ off2, tokenize (bytes.take m) = .error (.truncated off2) := by
  have hne : bytes.isEmpty = false := by
    cases bytes with
    | nil => simp [tokenize] at h
    | cons a l => rfl
  rw [tokenize, hne] at h
  simp only [Bool.false_eq_true, if_false] at h
  constructor
  · exact tokenizeGo_ok_size 0 bytes recs h
  · intro m hm hmlt hk
    obtain ⟨off2, h2⟩ := tokenizeGo_truncated 0 bytes recs h m hm hmlt hk
    refine ⟨off2, ?_⟩
    have hne2 : (bytes.take m).isEmpty = false := by
      rw [List.isEmpty_eq_false_iff_exists_mem]
      have : 0 < (bytes.take m).length := by
        rw [List.length_take]
        omega
      exact List.exists_mem_of_length_pos this
    rw [tokenize, hne2]
    simpa using h2

/-- C1 counterexample: the claim "for every buffer obtained by deleting
one or more trailing bytes from a well-formed TLV payload, tokenization
returns the Truncated error, never a structural success" is false:
`[1, 0, 2, 0]` is a well-formed two-record payload, and deleting its two
trailing bytes leaves `[1, 0]`, on which tokenization structurally succeeds
with the single record `(1, [])`. -/
theorem tokenize_truncation_counterexample :
    tokenize [1, 0, 2, 0] = .ok [⟨1, []⟩, ⟨2, []⟩] ∧
    [1, 0] = List.take 2 [1, 0, 2, 0] ∧
    tokenize [1, 0] = .ok [⟨1, []⟩] :=
  ⟨by simp [tokenize, tokenizeGo], rfl, by simp [tokenize, tokenizeGo]⟩

/-- C1 witness: the amended theorem applied to the concrete well-formed
payload `[1, 1, 65, 2, 0]` (records of sizes 3 and 2) and the mid-record
cut `m = 4`. -/
theorem tokenize_consumes_all_witness :
    recsSize [⟨1, [65]⟩, ⟨2, []⟩] = 5 ∧
    ∃ off2, tokenize (List.take 4 [1, 1, 65, 2, 0]) = .error (.truncated off2) := by
  have h : tokenize [1, 1, 65, 2, 0] = .ok [⟨1, [65]⟩, ⟨2, []⟩] := by
    simp [tokenize, tokenizeGo]
  obtain ⟨h1, h2⟩ :=
    tokenize_consumes_all_and_detects_truncation [1, 1, 65, 2, 0] [⟨1, [65]⟩, ⟨2, []⟩] h
  exact ⟨by simpa using h1, h2 4 (by decide) (by decide) (by decide)⟩

/-! ## Field mapper lemmas -/

/-- A tag absent from every record is not found. -/
theorem findTag_eq_none_of_forall (recs : List TlvRecord) (t : Nat)
    (h : ∀ r ∈ recs, r.tag ≠ t) : findTag recs t = none := by
  induction recs with
  | nil => rfl
  | cons r rest ih =>
    rw [findTag, if_neg (h r (by simp))]
    exact ih fun r' hr' => h r' (by simp [hr'])

/-- Text decoding succeeds exactly on a found, UTF-8-valid value. -/
theorem decodeText_ok_dest (t : Nat) (recs : List TlvRecord) (v : List Nat)
    (h : decodeText t recs = .ok v) :
    findTag recs t = some v ∧ utf8Valid v = true := by
  rw [decodeText] at h
  cases hf : findTag recs t with
  | none => rw [hf] at h; simp at h
  | some w =>
    rw [hf] at h
    by_cases hu : utf8Valid w = true
    · simp only [hu, if_true] at h
      cases h
      exact ⟨rfl, hu⟩
    · simp [hu] at h

/-- Amount decoding succeeds exactly on a found, decimal-parsable value. -/
theorem decodeAmount_ok_dest (t : Nat) (recs : List TlvRecord) (n : Nat)
    (h : decodeAmount t recs = .ok n) :
    ∃ v, findTag recs t = some v ∧ parseDecimal v = some n := by
  rw [decodeAmount] at h
  cases hf : findTag recs t with
  | none => rw [hf] at h; simp at h
  | some w =>
    rw [hf] at h
    cases hp : parseDecimal w with
    | none => simp [hp] at h
    | some m =>
      simp only [hp] at h
      cases h
      exact ⟨w, rfl, hp⟩

/-- Text decoding evaluated on a found, UTF-8-valid value. -/
theorem decodeText_ok_of (t : Nat) (recs : List TlvRecord) (v : List Nat)
    (hf : findTag recs t = some v) (hu : utf8Valid v = true) :
    decodeText t recs = .ok v := by
  simp [decodeText, hf, hu]

/-- Amount decoding evaluated on a found, decimal-parsable value. -/
theorem decodeAmount_ok_of (t : Nat) (recs : List TlvRecord) (v : List Nat) (n : Nat)
    (hf : findTag recs t = some v) (hp : parseDecimal v = some n) :
    decodeAmount t recs = .ok n := by
  simp [decodeAmount, hf, hp]

/-- Evaluation of `mapFields` under structural validity of all five tags: the
outcome is `Valid` and every field of the produced invoice is determined. -/
theorem mapFields_eval (recs : List TlvRecord) (s1 s2 s3 v4 v5 : List Nat) (n4 n5 : Nat)
    (h1 : findTag recs 1 = some s1) (hu1 : utf8Valid s1 = true) (hs1 : s1 ≠ [])
    (h2 : findTag recs 2 = some s2) (hu2 : utf8Valid s2 = true)
    (h3 : findTag recs 3 = some s3) (hu3 : utf8Valid s3 = true)
    (h4 : findTag recs 4 = some v4) (hp4 : parseDecimal v4 = some n4)
    (h5 : findTag recs 5 = some v5) (hp5 : parseDecimal v5 = some n5) :
    mapFields recs = .ok
      { sellerName := s1
        vatNumber := s2
        timestamp := s3
        invoiceTotal := n4
        vatTotal := n5
        subtotal := (n4 : Int) - (n5 : Int)
        extendedTags := (recs.filter (fun r => 6 ≤ r.tag)).map (fun r => (r.tag, r.value))
        warnings := (if isFifteenDigits s2 then [] else [.suspiciousVatNumber]) ++
          (if n4 < n5 then [.inconsistentAmounts] else []) } := by
  simp only [mapFields, decodeText_ok_of 1 recs s1 h1 hu1, if_neg hs1,
    decodeText_ok_of 2 recs s2 h2 hu2, decodeText_ok_of 3 recs s3 h3 hu3,
    decodeAmount_ok_of 4 recs v4 n4 h4 hp4, decodeAmount_ok_of 5 recs v5 n5 h5 hp5]

/-- Destructing a successful `mapFields`: all five tags were present and
decodable, and every invoice field equals its decoded value — the invoice is
never partially populated. -/
theorem mapFields_ok_dest (recs : List TlvRecord) (inv : ParsedInvoice)
    (h : mapFields recs = .ok inv) :
    findTag recs 1 = some inv.sellerName ∧ utf8Valid inv.sellerName = true ∧
      inv.sellerName ≠ [] ∧
    findTag recs 2 = some inv.vatNumber ∧ utf8Valid inv.vatNumber = true ∧
    findTag recs 3 = some inv.timestamp ∧ utf8Valid inv.timestamp = true ∧
    (∃ v4, findTag recs 4 = some v4 ∧ parseDecimal v4 = some inv.invoiceTotal) ∧
    (∃ v5, findTag recs 5 = some v5 ∧ parseDecimal v5 = some inv.vatTotal) ∧
    inv.subtotal = (inv.invoiceTotal : Int) - (inv.vatTotal : Int) := by
  cases e1 : decodeText 1 recs with
  | error e => simp [mapFields, e1] at h
  | ok seller =>
    by_cases hs : seller = []
    · simp [mapFields, e1, hs] at h
    · cases e2 : decodeText 2 recs with
      | error e => simp [mapFields, e1, if_neg hs, e2] at h
      | ok vat =>
        cases e3 : decodeText 3 recs with
        | error e => simp [mapFields, e1, if_neg hs, e2, e3] at h
        | ok ts =>
          cases e4 : decodeAmount 4 recs with
          | error e => simp [mapFields, e1, if_neg hs, e2, e3, e4] at h
          | ok total =>
            cases e5 : decodeAmount 5 recs with
            | error e => simp [mapFields, e1, if_neg hs, e2, e3, e4, e5] at h
            | ok vatAmt =>
              simp only [mapFields, e1, if_neg hs, e2, e3, e4, e5] at h
              cases h
              obtain ⟨hf1, hu1⟩ := decodeText_ok_dest 1 recs seller e1
              obtain ⟨hf2, hu2⟩ := decodeText_ok_dest 2 recs vat e2
              obtain ⟨hf3, hu3⟩ := decodeText_ok_dest 3 recs ts e3
              exact ⟨hf1, hu1, hs, hf2, hu2, hf3, hu3,
                decodeAmount_ok_dest 4 recs total e4,
                decodeAmount_ok_dest 5 recs vatAmt e5, rfl⟩

/-! ## C2: missing-tag rejection -/

/-- Text decoding of a missing tag fails with that tag's `MissingTag`. -/
theorem decodeText_err_missing (t : Nat) (recs : List TlvRecord)
    (h : findTag recs t = none) : decodeText t recs = .error (.missingTag t) := by
  simp [decodeText, h]

/-- Text decoding of a non-UTF-8 value fails with that tag's
`InvalidUtf8`. -/
theorem decodeText_err_utf8 (t : Nat) (recs : List TlvRecord) (v : List Nat)
    (h : findTag recs t = some v) (hu : utf8Valid v = false) :
    decodeText t recs = .error (.invalidUtf8 t) := by
  simp [decodeText, h, hu]

/-- Amount decoding of a missing tag fails with that tag's `MissingTag`. -/
theorem decodeAmount_err_missing (t : Nat) (recs : List TlvRecord)
    (h : findTag recs t = none) : decodeAmount t recs = .error (.missingTag t) := by
  simp [decodeAmount, h]

/-- Amount decoding of a non-numeric value fails with that tag's
`NotANumber`, carrying the offending raw bytes. -/
theorem decodeAmount_err_nan (t : Nat) (recs : List TlvRecord) (v : List Nat)
    (h : findTag recs t = some v) (hp : parseDecimal v = none) :
    decodeAmount t recs = .error (.notANumber t v) := by
  simp [decodeAmount, h, hp]

/-- C2: a TLV sequence containing records only for tags 1, 2, 3 (with
those three present and decodable) yields `Invalid(MissingTag(4))`.  More
generally — following the mapper's tag order, under which the first failing
tag determines the reported error — each mandatory tag that is missing
yields `Invalid(MissingTag(t))`, each tag 1–3 value failing UTF-8 decode
yields `Invalid(InvalidUtf8(t))` (the empty seller name included), and each
tag 4–5 value failing decimal parse yields `Invalid(NotANumber(t, raw))`;
finally, a `Valid` outcome certifies that every one of the five tags was
present and fully decodable, so no partially populated invoice is ever
produced. -/
theorem mapFields_missing_tag_rejection (recs : List TlvRecord) :
    (∀ s1 s2 s3 : List Nat,
      (∀ r ∈ recs, r.tag = 1 ∨ r.tag = 2 ∨ r.tag = 3) →
      findTag recs 1 = some s1 → utf8Valid s1 = true → s1 ≠ [] →
      findTag recs 2 = some s2 → utf8Valid s2 = true →
      findTag recs 3 = some s3 → utf8Valid s3 = true →
      mapFields recs = .error (.missingTag 4)) ∧
    (findTag recs 1 = none → mapFields recs = .error (.missingTag 1)) ∧
    (∀ v, findTag recs 1 = some v → utf8Valid v = false →
      mapFields recs = .error (.invalidUtf8 1)) ∧
    (findTag recs 1 = some [] → mapFields recs = .error (.invalidUtf8 1)) ∧
    (∀ s1, findTag recs 1 = some s1 → utf8Valid s1 = true → s1 ≠ [] →
      (findTag recs 2 = none → mapFields recs = .error (.missingTag 2)) ∧
      (∀ v, findTag recs 2 = some v → utf8Valid v = false →
        mapFields recs = .error (.invalidUtf8 2))) ∧
    (∀ s1 s2, findTag recs 1 = some s1 → utf8Valid s1 = true → s1 ≠ [] →
      findTag recs 2 = some s2 → utf8Valid s2 = true →
      (findTag recs 3 = none → mapFields recs = .error (.missingTag 3)) ∧
      (∀ v, findTag recs 3 = some v → utf8Valid v = false →
        mapFields recs = .error (.invalidUtf8 3))) ∧
    (∀ s1 s2 s3, findTag recs 1 = some s1 → utf8Valid s1 = true → s1 ≠ [] →
      findTag recs 2 = some s2 → utf8Valid s2 = true →
      findTag recs 3 = some s3 → utf8Valid s3 = true →
      (findTag recs 4 = none → mapFields recs = .error (.missingTag 4)) ∧
      (∀ v, findTag recs 4 = some v → parseDecimal v = none →
        mapFields recs = .error (.notANumber 4 v))) ∧
    (∀ s1 s2 s3 v4 n4, findTag recs 1 = some s1 → utf8Valid s1 = true → s1 ≠ [] →
      findTag recs 2 = some s2 → utf8Valid s2 = true →
      findTag recs 3 = some s3 → utf8Valid s3 = true →
      findTag recs 4 = some v4 → parseDecimal v4 = some n4 →
      (findTag recs 5 = none → mapFields recs = .error (.missingTag 5)) ∧
      (∀ v, findTag recs 5 = some v → parseDecimal v = none →
        mapFields recs = .error (.notANumber 5 v))) ∧
    (∀ t, 1 ≤ t → t ≤ 5 → findTag recs t = none →
      ∃ e, mapFields recs = .error e) ∧
    (∀ inv, mapFields recs = .ok inv →
      findTag recs 1 = some inv.sellerName ∧ utf8Valid inv.sellerName = true ∧
        inv.sellerName ≠ [] ∧
      findTag recs 2 = some inv.vatNumber ∧ utf8Valid inv.vatNumber = true ∧
      findTag recs 3 = some inv.timestamp ∧ utf8Valid inv.timestamp = true ∧
      (∃ v4, findTag recs 4 = some v4 ∧ parseDecimal v4 = some inv.invoiceTotal) ∧
      (∃ v5, findTag recs 5 = some v5 ∧ parseDecimal v5 = some inv.vatTotal)) := by
  refine ⟨?_, ?_, ?_, ?_, ?_, ?_, ?_, ?_, ?_, ?_⟩
  · intro s1 s2 s3 htags h1 hu1 hs1 h2 hu2 h3 hu3
    have h4 : findTag recs 4 = none :=
      findTag_eq_none_of_forall recs 4 fun r hr => by
        rcases htags r hr with h | h | h <;> omega
    simp only [mapFields, decodeText_ok_of 1 recs s1 h1 hu1, if_neg hs1,
      decodeText_ok_of 2 recs s2 h2 hu2, decodeText_ok_of 3 recs s3 h3 hu3,
      decodeAmount_err_missing 4 recs h4]
  · intro h1
    simp only [mapFields, decodeText_err_missing 1 recs h1]
  · intro v h1 hu
    simp only [mapFields, decodeText_err_utf8 1 recs v h1 hu]
  · intro h1
    simp [mapFields, decodeText_ok_of 1 recs [] h1 rfl]
  · intro s1 h1 hu1 hs1
    refine ⟨?_, ?_⟩
    · intro h2
      simp only [mapFields, decodeText_ok_of 1 recs s1 h1 hu1, if_neg hs1,
        decodeText_err_missing 2 recs h2]
    · intro v h2 hu2
      simp only [mapFields, decodeText_ok_of 1 recs s1 h1 hu1, if_neg hs1,
        decodeText_err_utf8 2 recs v h2 hu2]
  · intro s1 s2 h1 hu1 hs1 h2 hu2
    refine ⟨?_, ?_⟩
    · intro h3
      simp only [mapFields, decodeText_ok_of 1 recs s1 h1 hu1, if_neg hs1,
        decodeText_ok_of 2 recs s2 h2 hu2, decodeText_err_missing 3 recs h3]
    · intro v h3 hu3
      simp only [mapFields, decodeText_ok_of 1 recs s1 h1 hu1, if_neg hs1,
        decodeText_ok_of 2 recs s2 h2 hu2, decodeText_err_utf8 3 recs v h3 hu3]
  · intro s1 s2 s3 h1 hu1 hs1 h2 hu2 h3 hu3
    refine ⟨?_, ?_⟩
    · intro h4
      simp only [mapFields, decodeText_ok_of 1 recs s1 h1 hu1, if_neg hs1,
        decodeText_ok_of 2 recs s2 h2 hu2, decodeText_ok_of 3 recs s3 h3 hu3,
        decodeAmount_err_missing 4 recs h4]
    · intro v h4 hp4
      simp only [mapFields, decodeText_ok_of 1 recs s1 h1 hu1, if_neg hs1,
        decodeText_ok_of 2 recs s2 h2 hu2, decodeText_ok_of 3 recs s3 h3 hu3,
        decodeAmount_err_nan 4 recs v h4 hp4]
  · intro s1 s2 s3 v4 n4 h1 hu1 hs1 h2 hu2 h3 hu3 h4 hp4
    refine ⟨?_, ?_⟩
    · intro h5
      simp only [mapFields, decodeText_ok_of 1 recs s1 h1 hu1, if_neg hs1,
        decodeText_ok_of 2 recs s2 h2 hu2, decodeText_ok_of 3 recs s3 h3 hu3,
        decodeAmount_ok_of 4 recs v4 n4 h4 hp4, decodeAmount_err_missing 5 recs h5]
    · intro v h5 hp5
      simp only [mapFields, decodeText_ok_of 1 recs s1 h1 hu1, if_neg hs1,
        decodeText_ok_of 2 recs s2 h2 hu2, decodeText_ok_of 3 recs s3 h3 hu3,
        decodeAmount_ok_of 4 recs v4 n4 h4 hp4, decodeAmount_err_nan 5 recs v h5 hp5]
  · intro t ht1 ht5 hnone
    cases hm : mapFields recs with
    | error e => exact ⟨e, rfl⟩
    | ok inv =>
      exfalso
      obtain ⟨hf1, _, _, hf2, _, hf3, _, ⟨v4, hf4, _⟩, ⟨v5, hf5, _⟩, _⟩ :=
        mapFields_ok_dest recs inv hm
      interval_cases t <;> simp_all
  · intro inv hm
    obtain ⟨hf1, hu1, hs1, hf2, hu2, hf3, hu3, h4, h5, _⟩ := mapFields_ok_dest recs inv hm
    exact ⟨hf1, hu1, hs1, hf2, hu2, hf3, hu3, h4, h5⟩

/-- C2 witness: the theorem applied to two concrete sequences: the
three-record sequence `(1, "A"), (2, "2"), (3, "T")` yields
`Invalid(MissingTag(4))`, and the same sequence with a lone UTF-8 lead
byte `0xC2` as the tag-2 value yields `Invalid(InvalidUtf8(2))`. -/
theorem mapFields_missing_tag_witness :
    mapFields [⟨1, [65]⟩, ⟨2, [50]⟩, ⟨3, [84]⟩] = .error (.missingTag 4) ∧
    mapFields [⟨1, [65]⟩, ⟨2, [194]⟩, ⟨3, [84]⟩] = .error (.invalidUtf8 2) := by
  constructor
  · exact (mapFields_missing_tag_rejection [⟨1, [65]⟩, ⟨2, [50]⟩, ⟨3, [84]⟩]).1
      [65] [50] [84] (by decide) rfl rfl (by decide) rfl rfl rfl rfl
  · exact ((mapFields_missing_tag_rejection
      [⟨1, [65]⟩, ⟨2, [194]⟩, ⟨3, [84]⟩]).2.2.2.2.1
      [65] rfl rfl (by decide)).2 [194] rfl rfl

/-! ## C4: semantic checks never downgrade -/

/-- C4: for every structurally valid TLV sequence (all five tags present
and decodable) the outcome is `Valid` — the semantic checks never change the
outcome to `Invalid`; the subtotal is still computed as
`invoiceTotal − vatTotal` (and may be negative), and whenever
`vatTotal > invoiceTotal` the `InconsistentAmounts` warning is appended. -/
theorem mapFields_semantic_checks_only_warn (recs : List TlvRecord)
    (s1 s2 s3 v4 v5 : List Nat) (n4 n5 : Nat)
    (h1 : findTag recs 1 = some s1) (hu1 : utf8Valid s1 = true) (hs1 : s1 ≠ [])
    (h2 : findTag recs 2 = some s2) (hu2 : utf8Valid s2 = true)
    (h3 : findTag recs 3 = some s3) (hu3 : utf8Valid s3 = true)
    (h4 : findTag recs 4 = some v4) (hp4 : parseDecimal v4 = some n4)
    (h5 : findTag recs 5 = some v5) (hp5 : parseDecimal v5 = some n5) :
    ∃ inv, mapFields recs = .ok inv ∧
      inv.invoiceTotal = n4 ∧ inv.vatTotal = n5 ∧
      inv.subtotal = (n4 : Int) - (n5 : Int) ∧
      (n4 < n5 → Warning.inconsistentAmounts ∈ inv.warnings) := by
  refine ⟨_, mapFields_eval recs s1 s2 s3 v4 v5 n4 n5
    h1 hu1 hs1 h2 hu2 h3 hu3 h4 hp4 h5 hp5, rfl, rfl, rfl, ?_⟩
  intro hlt
  simp [if_pos hlt]

/-- C4 witness: the inconsistent-amount scenario of the spec: tag 4 =
`"10.00"`, tag 5 = `"15.00"` — the outcome is `Valid` with subtotal
`-5.00` (−500 cents) and the `InconsistentAmounts` warning, never
`Invalid`. -/
theorem mapFields_semantic_checks_witness :
    ∃ inv, mapFields [⟨1, [65]⟩, ⟨2, [50]⟩, ⟨3, [84]⟩,
        ⟨4, [49, 48, 46, 48, 48]⟩, ⟨5, [49, 53, 46, 48, 48]⟩] = .ok inv ∧
      inv.subtotal = -500 ∧ Warning.inconsistentAmounts ∈ inv.warnings := by
  obtain ⟨inv, hok, ht, hv, hsub, hwarn⟩ :=
    mapFields_semantic_checks_only_warn
      [⟨1, [65]⟩, ⟨2, [50]⟩, ⟨3, [84]⟩,
        ⟨4, [49, 48, 46, 48, 48]⟩, ⟨5, [49, 53, 46, 48, 48]⟩]
      [65] [50] [84] [49, 48, 46, 48, 48] [49, 53, 46, 48, 48] 1000 1500
      rfl rfl (by decide) rfl rfl rfl rfl rfl (by decide) rfl (by decide)
  exact ⟨inv, hok, by rw [hsub]; decide, hwarn (by decide)⟩

/-! ## C7: determinism and purity -/

/-- C7: the decoder is deterministic: two decode calls on the same
input return equal outcomes.  (Freedom from side effects holds by
construction of the embedding: `decodeQR` and `parseZATCAQR` are total
functions of their input string alone, with no ambient state.) -/
theorem decodeQR_deterministic (s1 s2 : String) (h : s1 = s2) :
    decodeQR s1 = decodeQR s2 ∧ parseZATCAQR s1 = parseZATCAQR s2 := by
  subst h
  exact ⟨rfl, rfl⟩

/-- C7 witness: determinism at a concrete input. -/
theorem decodeQR_deterministic_witness :
    decodeQR "AQFB" = decodeQR "AQFB" ∧ parseZATCAQR "AQFB" = parseZATCAQR "AQFB" :=
  decodeQR_deterministic "AQFB" "AQFB" rfl

/-! ## C3: single outcome, and the stored record of the pipeline -/

/-- A successful top-level decode factors through successful base64
decoding, tokenization and field mapping. -/
theorem decodeQR_ok_dest (s : String) (inv : ParsedInvoice)
    (h : decodeQR s = .ok inv) :
    ∃ bytes recs, decodeBase64 s = .ok bytes ∧ tokenize bytes = .ok recs ∧
      mapFields recs = .ok inv := by
  cases hb : decodeBase64 s with
  | error e => simp [decodeQR, hb] at h
  | ok bytes =>
    cases ht : tokenize bytes with
    | error e => simp [decodeQR, hb, ht] at h
    | ok recs =>
      simp only [decodeQR, hb, ht] at h
      exact ⟨bytes, recs, rfl, ht, h⟩

/-- The pipeline's nullable view of the decoder: `some` is exactly a
`Valid` outcome. -/
theorem parseZATCAQR_some_dest (s : String) (p : ParsedInvoice)
    (h : parseZATCAQR s = some p) : decodeQR s = .ok p := by
  cases hd : decodeQR s with
  | error e => rw [parseZATCAQR, hd] at h; simp [Except.toOption] at h
  | ok inv =>
    rw [parseZATCAQR, hd] at h
    simp [Except.toOption] at h
    subst h
    rfl

/-- C3 (amended): one decode call returns exactly one of the two
outcome variants, and no partially-valid state is exposed.  In the calling
pipeline, on parser success the record is stored with status `"valid"`,
`sellerName` always populated (the validator guarantees non-emptiness), the
three numeric columns always populated, and `vatNumber`/`invoiceDate`
populated exactly when the parsed value is non-empty (the `|| null`
coalescing maps an empty string to null); on parser failure the record is
stored with status `"invalid"` and every invoice field null. -/
theorem buildQRRecord_status_fields (sid s : String) :
    ((∃ inv, decodeQR s = .ok inv) ∨ (∃ e, decodeQR s = .error e)) ∧
    ¬((∃ inv, decodeQR s = .ok inv) ∧ (∃ e, decodeQR s = .error e)) ∧
    (∀ p, parseZATCAQR s = some p →
      (buildQRRecord sid s).status = "valid" ∧
      (buildQRRecord sid s).sellerName = some p.sellerName ∧
      (buildQRRecord sid s).vatNumber = orNull p.vatNumber ∧
      (buildQRRecord sid s).invoiceNumber = none ∧
      (buildQRRecord sid s).invoiceDate = orNull p.timestamp ∧
      (buildQRRecord sid s).subtotal = some (numToString p.subtotal) ∧
      (buildQRRecord sid s).vatAmount = some (numToString p.vatTotal) ∧
      (buildQRRecord sid s).totalAmount = some (numToString p.invoiceTotal)) ∧
    (parseZATCAQR s = none →
      (buildQRRecord sid s).status = "invalid" ∧
      (buildQRRecord sid s).sellerName = none ∧
      (buildQRRecord sid s).vatNumber = none ∧
      (buildQRRecord sid s).invoiceNumber = none ∧
      (buildQRRecord sid s).invoiceDate = none ∧
      (buildQRRecord sid s).subtotal = none ∧
      (buildQRRecord sid s).vatAmount = none ∧
      (buildQRRecord sid s).totalAmount = none) := by
  refine ⟨?_, ?_, ?_, ?_⟩
  · cases hd : decodeQR s with
    | error e => exact Or.inr ⟨e, rfl⟩
    | ok inv => exact Or.inl ⟨inv, rfl⟩
  · rintro ⟨⟨inv, hok⟩, ⟨e, herr⟩⟩
    rw [hok] at herr
    exact absurd herr (by simp)
  · intro p hp
    have hd : decodeQR s = .ok p := parseZATCAQR_some_dest s p hp
    obtain ⟨bytes, recs, _, _, hm⟩ := decodeQR_ok_dest s p hd
    obtain ⟨_, _, hne, _⟩ := mapFields_ok_dest recs p hm
    simp only [buildQRRecord, hp]
    simp [orNull, hne]
  · intro hp
    simp [buildQRRecord, hp]

/-- C3 counterexample: "all five fields populated when the parser
succeeds" is false: for the payload `(1,"A"), (2,""), (3,"T"),
(4,"0.00"), (5,"0.00")` (tag 2 carries the empty string, which the
validator accepts) the parser succeeds and the record is stored with status
`"valid"`, yet the `vatNumber` column is null — JS `'' || null` coalesces
the empty string to null. -/
theorem buildQRRecord_empty_field_counterexample :
    (∃ p, parseZATCAQR
        (encodeBase64 [1, 1, 65, 2, 0, 3, 1, 84, 4, 4, 48, 46, 48, 48,
          5, 4, 48, 46, 48, 48]) = some p) ∧
    (buildQRRecord "s1"
        (encodeBase64 [1, 1, 65, 2, 0, 3, 1, 84, 4, 4, 48, 46, 48, 48,
          5, 4, 48, 46, 48, 48])).status = "valid" ∧
    (buildQRRecord "s1"
        (encodeBase64 [1, 1, 65, 2, 0, 3, 1, 84, 4, 4, 48, 46, 48, 48,
          5, 4, 48, 46, 48, 48])).vatNumber = none := by
  have ht : tokenize [1, 1, 65, 2, 0, 3, 1, 84, 4, 4, 48, 46, 48, 48, 5, 4, 48, 46, 48, 48] =
      .ok [⟨1, [65]⟩, ⟨2, []⟩, ⟨3, [84]⟩, ⟨4, [48, 46, 48, 48]⟩, ⟨5, [48, 46, 48, 48]⟩] := by
    simp [tokenize, tokenizeGo]
  have hd : decodeQR (encodeBase64 [1, 1, 65, 2, 0, 3, 1, 84, 4, 4, 48, 46, 48, 48,
      5, 4, 48, 46, 48, 48]) = .ok ⟨[65], [], [84], 0, 0, 0, [], [.suspiciousVatNumber]⟩ := by
    rw [decodeQR, show decodeBase64 (encodeBase64 [1, 1, 65, 2, 0, 3, 1, 84, 4, 4, 48, 46,
      48, 48, 5, 4, 48, 46, 48, 48]) =
      .ok [1, 1, 65, 2, 0, 3, 1, 84, 4, 4, 48, 46, 48, 48, 5, 4, 48, 46, 48, 48] from rfl]
    simp only [ht]
    rfl
  have hp : parseZATCAQR (encodeBase64 [1, 1, 65, 2, 0, 3, 1, 84, 4, 4, 48, 46, 48, 48,
      5, 4, 48, 46, 48, 48]) = some ⟨[65], [], [84], 0, 0, 0, [], [.suspiciousVatNumber]⟩ := by
    rw [parseZATCAQR, hd]
    rfl
  rw [buildQRRecord, hp]
  exact ⟨⟨_, rfl⟩, rfl, rfl⟩

/-- C3 witness: the amended theorem applied to the concrete payload of
the counterexample (success side) and to the empty string (failure side). -/
theorem buildQRRecord_status_fields_witness :
    (buildQRRecord "s1"
        (encodeBase64 [1, 1, 65, 2, 0, 3, 1, 84, 4, 4, 48, 46, 48, 48,
          5, 4, 48, 46, 48, 48])).status = "valid" ∧
    (buildQRRecord "s1" "").status = "invalid" ∧
    (buildQRRecord "s1" "").sellerName = none := by
  have ht : tokenize [1, 1, 65, 2, 0, 3, 1, 84, 4, 4, 48, 46, 48, 48, 5, 4, 48, 46, 48, 48] =
      .ok [⟨1, [65]⟩, ⟨2, []⟩, ⟨3, [84]⟩, ⟨4, [48, 46, 48, 48]⟩, ⟨5, [48, 46, 48, 48]⟩] := by
    simp [tokenize, tokenizeGo]
  have hp : parseZATCAQR (encodeBase64 [1, 1, 65, 2, 0, 3, 1, 84, 4, 4, 48, 46, 48, 48,
      5, 4, 48, 46, 48, 48]) = some ⟨[65], [], [84], 0, 0, 0, [], [.suspiciousVatNumber]⟩ := by
    rw [parseZATCAQR, decodeQR,
      show decodeBase64 (encodeBase64 [1, 1, 65, 2, 0, 3, 1, 84, 4, 4, 48, 46, 48, 48, 5, 4,
        48, 46, 48, 48]) =
        .ok [1, 1, 65, 2, 0, 3, 1, 84, 4, 4, 48, 46, 48, 48, 5, 4, 48, 46, 48, 48] from rfl]
    simp only [ht]
    rfl
  have hnone : parseZATCAQR "" = none := rfl
  obtain ⟨_, _, hsucc, _⟩ := buildQRRecord_status_fields "s1"
    (encodeBase64 [1, 1, 65, 2, 0, 3, 1, 84, 4, 4, 48, 46, 48, 48, 5, 4, 48, 46, 48, 48])
  obtain ⟨_, _, _, hfail⟩ := buildQRRecord_status_fields "s1" ""
  obtain ⟨hst, _⟩ := hsucc _ hp
  obtain ⟨hst2, hsn2, _⟩ := hfail hnone
  exact ⟨hst, hst2, hsn2⟩

/-! ## C8: session statistics -/

/-- Predicate: record belongs to session `sid`. -/
def inSession (sid : String) (q : ScannedQR) : Bool := decide (q.sessionId = sid)

/-- Predicate: record has status `"valid"`. -/
def isValidQR (q : ScannedQR) : Bool := decide (q.status = "valid")

/-- Predicate: record has status `"invalid"`. -/
def isInvalidQR (q : ScannedQR) : Bool := decide (q.status = "invalid")

/-- Splitting a session count by a binary status. -/
theorem countP_session_split (sid : String) (l : List ScannedQR)
    (hl : ∀ q ∈ l, q.status = "valid" ∨ q.status = "invalid") :
    l.countP (inSession sid) =
      l.countP (fun q => inSession sid q && isValidQR q) +
      l.countP (fun q => inSession sid q && isInvalidQR q) := by
  induction l with
  | nil => simp
  | cons q rest ih =>
    have hq := hl q (by simp)
    have hrest := ih fun r hr => hl r (by simp [hr])
    simp only [List.countP_cons]
    rcases hq with h | h <;>
      by_cases hs : q.sessionId = sid <;>
        simp [inSession, isValidQR, isInvalidQR, h, hs] at hrest ⊢ <;> omega

/-- C8: `getSessionStats` returns `totalScans` = number of stored
records with that `sessionId`, `validScans` = number of those with status
`"valid"`, `errors` = number with status `"invalid"` (hence
`totalScans = validScans + errors` whenever every record's status is one of
the two), and `totalAmount` = the sum of the parsed `totalAmount` over
valid records only, a missing amount counting as `0`.  The number parser
`pf` stands for JS `parseFloat` and is assumed only to parse the fallback
string `"0"` to `0`; records carrying an explicitly empty amount string are
excluded, as their fallback behaviour is outside the claim. -/
theorem getSessionStats_spec (pf : String → ℚ) (qrs : List ScannedQR) (sid : String)
    (h0 : pf "0" = 0)
    (hne : ∀ qr ∈ qrs, qr.totalAmount ≠ some "") :
    (getSessionStats pf qrs sid).totalScans = qrs.countP (inSession sid) ∧
    (getSessionStats pf qrs sid).validScans =
      qrs.countP (fun q => inSession sid q && isValidQR q) ∧
    (getSessionStats pf qrs sid).errors =
      qrs.countP (fun q => inSession sid q && isInvalidQR q) ∧
    (getSessionStats pf qrs sid).totalAmount =
      ((qrs.filter (fun q => inSession sid q && isValidQR q)).map
        (fun q => match q.totalAmount with
          | none => 0
          | some s => pf s)).sum ∧
    ((∀ q ∈ qrs, q.status = "valid" ∨ q.status = "invalid") →
      (getSessionStats pf qrs sid).totalScans =
        (getSessionStats pf qrs sid).validScans + (getSessionStats pf qrs sid).errors) := by
  have hperm : (getScannedQRs qrs sid).Perm
      (qrs.filter (fun q => decide (q.sessionId = sid))) :=
    List.mergeSort_perm _ _
  have htotal : (getSessionStats pf qrs sid).totalScans = qrs.countP (inSession sid) := by
    show (getScannedQRs qrs sid).length = _
    rw [hperm.length_eq, ← List.countP_eq_length_filter]
    rfl
  have hvalid : (getSessionStats pf qrs sid).validScans =
      qrs.countP (fun q => inSession sid q && isValidQR q) := by
    show ((getScannedQRs qrs sid).filter _).length = _
    rw [(hperm.filter _).length_eq, List.filter_filter, ← List.countP_eq_length_filter]
    exact List.countP_congr fun q _ => by simp [inSession, isValidQR, Bool.and_comm]
  have herr : (getSessionStats pf qrs sid).errors =
      qrs.countP (fun q => inSession sid q && isInvalidQR q) := by
    show ((getScannedQRs qrs sid).filter _).length = _
    rw [(hperm.filter _).length_eq, List.filter_filter, ← List.countP_eq_length_filter]
    exact List.countP_congr fun q _ => by simp [inSession, isInvalidQR, Bool.and_comm]
  refine ⟨htotal, hvalid, herr, ?_, ?_⟩
  · show (((getScannedQRs qrs sid).filter _).map _).sum = _
    rw [((hperm.filter _).map _).sum_eq, List.filter_filter]
    have hfl : (qrs.filter fun a => decide (a.status = "valid") && decide (a.sessionId = sid)) =
        qrs.filter (fun q => inSession sid q && isValidQR q) :=
      List.filter_congr fun q _ => by simp [inSession, isValidQR, Bool.and_comm]
    rw [hfl]
    refine congrArg List.sum (List.map_congr_left fun q hq => ?_)
    have hmem : q ∈ qrs := (List.mem_filter.mp hq).1
    cases hta : q.totalAmount with
    | none => simp [orZeroStr, hta, h0]
    | some s =>
      have hs : s ≠ "" := fun habs => hne q hmem (by rw [hta, habs])
      simp [orZeroStr, hta, hs]
  · intro hall
    rw [htotal, hvalid, herr]
    exact countP_session_split sid qrs hall

/-- C8 witness: the theorem applied to a concrete two-record store (one
valid record with amount `"115.5"`, one invalid record) and a concrete
parser sending `"0" ↦ 0` and `"115.5" ↦ 231/2`. -/
theorem getSessionStats_witness :
    (getSessionStats (fun s => if s = "115.5" then (231 : ℚ) / 2 else 0)
        [⟨1, "s1", "r1", "valid", none, none, none, none, none, none, some "115.5", 5⟩,
         ⟨2, "s1", "r2", "invalid", none, none, none, none, none, none, none, 7⟩]
        "s1").totalScans = 2 ∧
    (getSessionStats (fun s => if s = "115.5" then (231 : ℚ) / 2 else 0)
        [⟨1, "s1", "r1", "valid", none, none, none, none, none, none, some "115.5", 5⟩,
         ⟨2, "s1", "r2", "invalid", none, none, none, none, none, none, none, 7⟩]
        "s1").totalAmount = (231 : ℚ) / 2 := by
  obtain ⟨ht, hv, he, ha, hsum⟩ := getSessionStats_spec
    (fun s => if s = "115.5" then (231 : ℚ) / 2 else 0)
    [⟨1, "s1", "r1", "valid", none, none, none, none, none, none, some "115.5", 5⟩,
     ⟨2, "s1", "r2", "invalid", none, none, none, none, none, none, none, 7⟩]
    "s1" (by simp) (by decide)
  refine ⟨by rw [ht]; decide, ?_⟩
  rw [ha]
  norm_num [inSession, isValidQR]
  decide

/-! ## C9: clearing a session -/

/-- Deleting each id of a list from an association list amounts to one
filter excluding all of them. -/
theorem foldl_delete_eq_filter (ids : List Nat) (m0 : List (Nat × ScannedQR)) :
    ids.foldl (fun m i => m.filter (fun e => decide (e.1 ≠ i))) m0 =
      m0.filter (fun e => decide (e.1 ∉ ids)) := by
  induction ids generalizing m0 with
  | nil => simp
  | cons i ids ih =>
    rw [List.foldl_cons, ih, List.filter_filter]
    refine List.filter_congr fun e he => ?_
    by_cases h1 : e.1 = i <;> by_cases h2 : e.1 ∈ ids <;>
      simp [h1, h2, List.mem_cons]

/-- Under unique map keys, an entry's key is among the collected
session ids exactly when the entry itself belongs to the session. -/
theorem mem_collected_ids_iff (qrs : List (Nat × ScannedQR)) (sid : String)
    (hnd : (qrs.map (fun e => e.1)).Nodup) (e : Nat × ScannedQR) (he : e ∈ qrs) :
    e.1 ∈ ((qrs.filter (fun e => decide (e.2.sessionId = sid))).map (fun e => e.1)) ↔
      e.2.sessionId = sid := by
  constructor
  · intro hmem
    obtain ⟨e2, he2, hkey⟩ := List.mem_map.mp hmem
    obtain ⟨he2mem, he2s⟩ := List.mem_filter.mp he2
    have : e2 = e := List.inj_on_of_nodup_map hnd he2mem he hkey
    subst this
    exact of_decide_eq_true he2s
  · intro hs
    exact List.mem_map.mpr ⟨e, List.mem_filter.mpr ⟨he, decide_eq_true hs⟩, rfl⟩

/-- C9: `clearSessionQRs` removes exactly the stored QR records whose
`sessionId` matches (assuming the map invariant that stored keys are
unique): afterwards the QR map is precisely the old map with the session's
entries removed — so no record of that session remains and records of other
sessions are untouched — the sessions map is unchanged, and the call
returns `true` unconditionally. -/
theorem clearSessionQRs_spec (st : MemStorageState) (sid : String)
    (hnd : (st.qrs.map (fun e => e.1)).Nodup) :
    (clearSessionQRs st sid).2 = true ∧
    (clearSessionQRs st sid).1.qrs =
      st.qrs.filter (fun e => decide (e.2.sessionId ≠ sid)) ∧
    (clearSessionQRs st sid).1.sessions = st.sessions ∧
    (∀ e ∈ (clearSessionQRs st sid).1.qrs, e.2.sessionId ≠ sid) ∧
    (∀ e ∈ st.qrs, e.2.sessionId ≠ sid → e ∈ (clearSessionQRs st sid).1.qrs) := by
  have hqrs : (clearSessionQRs st sid).1.qrs =
      st.qrs.filter (fun e => decide (e.2.sessionId ≠ sid)) := by
    show ((st.qrs.filter (fun e => decide (e.2.sessionId = sid))).map
        (fun e => e.1)).foldl _ st.qrs = _
    rw [foldl_delete_eq_filter]
    refine List.filter_congr fun e he => ?_
    rw [decide_eq_decide, not_iff_not]
    exact mem_collected_ids_iff st.qrs sid hnd e he
  refine ⟨rfl, hqrs, rfl, ?_, ?_⟩
  · intro e hmem
    rw [hqrs] at hmem
    exact of_decide_eq_true (List.mem_filter.mp hmem).2
  · intro e hmem hs
    rw [hqrs]
    exact List.mem_filter.mpr ⟨hmem, decide_eq_true hs⟩

/-- C9 witness: the theorem applied to a concrete two-session store:
the session-`"s1"` record disappears, the session-`"s2"` record and the
sessions map survive, and the call returns `true`. -/
theorem clearSessionQRs_witness :
    (clearSessionQRs
        ⟨[("s1", ⟨1, "s1", 0⟩)],
         [(1, ⟨1, "s1", "r1", "valid", none, none, none, none, none, none, none, 5⟩),
          (2, ⟨2, "s2", "r2", "valid", none, none, none, none, none, none, none, 6⟩)]⟩
        "s1").2 = true ∧
    (clearSessionQRs
        ⟨[("s1", ⟨1, "s1", 0⟩)],
         [(1, ⟨1, "s1", "r1", "valid", none, none, none, none, none, none, none, 5⟩),
          (2, ⟨2, "s2", "r2", "valid", none, none, none, none, none, none, none, 6⟩)]⟩
        "s1").1.qrs =
      [(2, ⟨2, "s2", "r2", "valid", none, none, none, none, none, none, none, 6⟩)] ∧
    (clearSessionQRs
        ⟨[("s1", ⟨1, "s1", 0⟩)],
         [(1, ⟨1, "s1", "r1", "valid", none, none, none, none, none, none, none, 5⟩),
          (2, ⟨2, "s2", "r2", "valid", none, none, none, none, none, none, none, 6⟩)]⟩
        "s1").1.sessions = [("s1", ⟨1, "s1", 0⟩)] := by
  obtain ⟨hret, hqrs, hsess, _, _⟩ := clearSessionQRs_spec
    ⟨[("s1", ⟨1, "s1", 0⟩)],
     [(1, ⟨1, "s1", "r1", "valid", none, none, none, none, none, none, none, 5⟩),
      (2, ⟨2, "s2", "r2", "valid", none, none, none, none, none, none, none, 6⟩)]⟩
    "s1" (by decide)
  exact ⟨hret, by rw [hqrs]; decide, hsess⟩

/-! ## C10: export range filtering -/

/-- C10: `exportToExcel`'s selection stage: with `exportRange`
`selected` but `selectedIds` absent no filtering is applied and the
exported rows equal those of `exportRange` `all`; with `selectedIds`
present exactly the records whose `id` is in `selectedIds` are exported;
and with `exportRange` `valid` exactly the records with status `"valid"`
are exported. -/
theorem selectExport_spec (qrCodes : List ScannedQR) (fn fn2 : String)
    (ih ih2 : Bool) (ids0 : Option (List Nat)) :
    selectExport qrCodes ⟨fn, ih, .selected, none⟩ =
      selectExport qrCodes ⟨fn2, ih2, .all, ids0⟩ ∧
    (∀ ids, selectExport qrCodes ⟨fn, ih, .selected, some ids⟩ =
      qrCodes.filter (fun q => decide (q.id ∈ ids))) ∧
    selectExport qrCodes ⟨fn, ih, .valid, ids0⟩ =
      qrCodes.filter (fun q => decide (q.status = "valid")) := by
  refine ⟨rfl, ?_, rfl⟩
  intro ids
  refine List.filter_congr fun q hq => ?_
  show ids.contains q.id = _
  by_cases h : q.id ∈ ids <;> simp [h]

/-! ## Base64 round-trip lemmas -/

/-- Decoding inverts encoding on every sextet. -/
theorem decB64_encB64 : ∀ n, n < 64 → decB64 (encB64 n) = some n := by decide

/-- No sextet encodes to the padding character. -/
theorem encB64_ne_pad : ∀ n, n < 64 → encB64 n ≠ '=' := by decide

/-- No sextet encodes to whitespace. -/
theorem encB64_not_ws (n : Nat) : isWsChar (encB64 n) = false := by
  by_cases h : n < 64
  · revert n
    decide
  · rw [encB64, List.getD_eq_default]
    · rfl
    · have hlen : b64Alphabet.length = 64 := rfl
      omega

/-- Base64 decoding inverts base64 encoding on byte lists. -/
theorem decodeB64Chars_encodeB64Chars (bs : List Nat) (hb : ∀ b ∈ bs, b < 256) :
    decodeB64Chars (encodeB64Chars bs) = some bs := by
  induction bs using encodeB64Chars.induct with
  | case1 => rfl
  | case2 a =>
    have ha : a < 256 := hb a (by simp)
    have e1 : decB64 (encB64 (a / 4)) = some (a / 4) := decB64_encB64 _ (by omega)
    have e2 : decB64 (encB64 (a % 4 * 16)) = some (a % 4 * 16) := decB64_encB64 _ (by omega)
    simp only [encodeB64Chars, decodeB64Chars, e1, e2, if_pos rfl, List.isEmpty_nil,
      Bool.and_true, and_true, Option.some.injEq, List.cons.injEq, and_true]
    simp
    omega
  | case3 a b =>
    have ha : a < 256 := hb a (by simp)
    have hbb : b < 256 := hb b (by simp)
    have e1 : decB64 (encB64 (a / 4)) = some (a / 4) := decB64_encB64 _ (by omega)
    have e2 : decB64 (encB64 (a % 4 * 16 + b / 16)) = some (a % 4 * 16 + b / 16) :=
      decB64_encB64 _ (by omega)
    have e3 : decB64 (encB64 (b % 16 * 4)) = some (b % 16 * 4) := decB64_encB64 _ (by omega)
    have hne : encB64 (b % 16 * 4) ≠ '=' := encB64_ne_pad _ (by omega)
    simp only [encodeB64Chars, decodeB64Chars, e1, e2, e3, if_neg hne, if_pos rfl,
      List.isEmpty_nil, if_true, Option.some.injEq, List.cons.injEq, and_true]
    simp
    omega
  | case4 a b c rest ih =>
    have ha : a < 256 := hb a (by simp)
    have hbb : b < 256 := hb b (by simp)
    have hc : c < 256 := hb c (by simp)
    have hrest : ∀ x ∈ rest, x < 256 := fun x hx => hb x (by simp [hx])
    have e1 : decB64 (encB64 (a / 4)) = some (a / 4) := decB64_encB64 _ (by omega)
    have e2 : decB64 (encB64 (a % 4 * 16 + b / 16)) = some (a % 4 * 16 + b / 16) :=
      decB64_encB64 _ (by omega)
    have e3 : decB64 (encB64 (b % 16 * 4 + c / 64)) = some (b % 16 * 4 + c / 64) :=
      decB64_encB64 _ (by omega)
    have e4 : decB64 (encB64 (c % 64)) = some (c % 64) := decB64_encB64 _ (by omega)
    have hne3 : encB64 (b % 16 * 4 + c / 64) ≠ '=' := encB64_ne_pad _ (by omega)
    have hne4 : encB64 (c % 64) ≠ '=' := encB64_ne_pad _ (by omega)
    simp only [encodeB64Chars, decodeB64Chars, e1, e2, e3, e4, if_neg hne3, if_neg hne4,
      ih hrest, Option.some.injEq, List.cons.injEq]
    simp
    omega

/-- Dropping leading whitespace is the identity on whitespace-free lists. -/
theorem dropWhile_ws_eq_self (l : List Char) (h : ∀ c ∈ l, isWsChar c = false) :
    l.dropWhile isWsChar = l := by
  cases l with
  | nil => rfl
  | cons c cs => simp [List.dropWhile_cons, h c (by simp)]

/-- Trimming is the identity on whitespace-free character lists. -/
theorem trimChars_eq_self (l : List Char) (h : ∀ c ∈ l, isWsChar c = false) :
    trimChars l = l := by
  rw [trimChars, dropWhile_ws_eq_self l h,
    dropWhile_ws_eq_self l.reverse (fun c hc => h c (List.mem_reverse.mp hc)),
    List.reverse_reverse]

/-- Every character of a base64 encoding is either an alphabet character or
the padding character — never whitespace. -/
theorem encodeB64Chars_not_ws (bs : List Nat) :
    ∀ c ∈ encodeB64Chars bs, isWsChar c = false := by
  induction bs using encodeB64Chars.induct with
  | case1 => simp [encodeB64Chars]
  | case2 a =>
    intro c hc
    simp only [encodeB64Chars, List.mem_cons, List.not_mem_nil, or_false] at hc
    rcases hc with rfl | rfl | rfl | rfl <;> first | exact encB64_not_ws _ | rfl
  | case3 a b =>
    intro c hc
    simp only [encodeB64Chars, List.mem_cons, List.not_mem_nil, or_false] at hc
    rcases hc with rfl | rfl | rfl | rfl <;> first | exact encB64_not_ws _ | rfl
  | case4 a b c rest ih =>
    intro x hx
    simp only [encodeB64Chars, List.mem_cons] at hx
    rcases hx with rfl | rfl | rfl | rfl | hx
    · exact encB64_not_ws _
    · exact encB64_not_ws _
    · exact encB64_not_ws _
    · exact encB64_not_ws _
    · exact ih x hx

/-- Length of a base64 encoding: four characters per three-byte block. -/
theorem encodeB64Chars_length (bs : List Nat) :
    (encodeB64Chars bs).length = 4 * ((bs.length + 2) / 3) := by
  induction bs using encodeB64Chars.induct with
  | case1 => rfl
  | case2 a => simp [encodeB64Chars]
  | case3 a b => simp [encodeB64Chars]
  | case4 a b c rest ih =>
    simp only [encodeB64Chars, List.length_cons, ih]
    omega

/-- The base64 decoder component inverts the encoder on non-empty byte
lists of bounded size. -/
theorem decodeBase64_encodeBase64 (bs : List Nat) (hne : bs ≠ [])
    (hb : ∀ b ∈ bs, b < 256) (hlen : bs.length ≤ 3000) :
    decodeBase64 (encodeBase64 bs) = .ok bs := by
  have hslen : (encodeBase64 bs).length = 4 * ((bs.length + 2) / 3) :=
    encodeB64Chars_length bs
  have htl : (encodeBase64 bs).toList = encodeB64Chars bs := rfl
  rw [decodeBase64, if_neg (by rw [hslen]; show ¬(4096 < _); omega), htl,
    trimChars_eq_self _ (encodeB64Chars_not_ws bs),
    decodeB64Chars_encodeB64Chars bs hb]
  obtain ⟨hd, tl, rfl⟩ := List.exists_cons_of_ne_nil hne
  rfl

/-! ## TLV encode/tokenize and decimal round-trip lemmas -/

/-- Tokenizing one wire record followed by more bytes peels off that
record. -/
theorem tokenizeGo_tlv (off t : Nat) (v rest : List Nat) :
    tokenizeGo off (t :: v.length :: (v ++ rest)) =
      match tokenizeGo (off + 2 + v.length) rest with
      | .error e => .error e
      | .ok recs => .ok (⟨t, v⟩ :: recs) := by
  rw [tokenizeGo, if_neg (by simp), List.take_left, List.drop_left]

/-- Tokenizing a final wire record. -/
theorem tokenizeGo_tlv_last (off t : Nat) (v : List Nat) :
    tokenizeGo off (t :: v.length :: v) = .ok [⟨t, v⟩] := by
  have h := tokenizeGo_tlv off t v []
  rw [List.append_nil] at h
  rw [h, show tokenizeGo (off + 2 + v.length) ([] : List Nat) = .ok [] from by rw [tokenizeGo]]

/-- Tokenizing an encoded invoice yields exactly its five records. -/
theorem tokenize_encodeInvoice (inv : ParsedInvoice) :
    tokenize (encodeInvoice inv) =
      .ok [⟨1, inv.sellerName⟩, ⟨2, inv.vatNumber⟩, ⟨3, inv.timestamp⟩,
        ⟨4, renderDecimal inv.invoiceTotal⟩, ⟨5, renderDecimal inv.vatTotal⟩] := by
  have hshape : encodeInvoice inv =
      1 :: inv.sellerName.length :: (inv.sellerName ++
        (2 :: inv.vatNumber.length :: (inv.vatNumber ++
          (3 :: inv.timestamp.length :: (inv.timestamp ++
            (4 :: (renderDecimal inv.invoiceTotal).length :: (renderDecimal inv.invoiceTotal ++
              (5 :: (renderDecimal inv.vatTotal).length :: renderDecimal inv.vatTotal)))))))) := by
    simp [encodeInvoice, tlvBytes]
  rw [tokenize, hshape]
  rw [show (1 :: inv.sellerName.length :: (inv.sellerName ++ _)).isEmpty = false from rfl]
  simp only [Bool.false_eq_true, if_false]
  rw [tokenizeGo_tlv, tokenizeGo_tlv, tokenizeGo_tlv, tokenizeGo_tlv, tokenizeGo_tlv_last]

/-- The digit bytes of a natural number are ASCII digits. -/
theorem natToBytes_digits (m : Nat) : ∀ b ∈ natToBytes m, isDigitByte b = true := by
  intro b hb
  rw [natToBytes] at hb
  by_cases h : m = 0
  · rw [if_pos h] at hb
    simp at hb
    subst hb
    rfl
  · rw [if_neg h] at hb
    rw [List.mem_reverse, List.mem_map] at hb
    obtain ⟨d, hd, rfl⟩ := hb
    have : d < 10 := Nat.digits_lt_base (by norm_num) hd
    simp [isDigitByte]
    omega

/-- The digit bytes of a natural number are never empty. -/
theorem natToBytes_ne_nil (m : Nat) : natToBytes m ≠ [] := by
  rw [natToBytes]
  by_cases h : m = 0
  · simp [h]
  · rw [if_neg h]
    simp [Nat.digits_ne_nil_iff_ne_zero, h]

/-- The digit bytes of a natural number are below 256 (in fact below 58). -/
theorem natToBytes_lt (m : Nat) : ∀ b ∈ natToBytes m, b < 58 := by
  intro b hb
  have := natToBytes_digits m b hb
  simp [isDigitByte] at this
  omega

/-- Reading the digit bytes of a natural number back yields the number. -/
theorem ofDigits_natToBytes (m : Nat) :
    Nat.ofDigits 10 (((natToBytes m).map (fun b => b - 48)).reverse) = m := by
  by_cases h : m = 0
  · subst h
    simp [natToBytes, Nat.ofDigits]
  · rw [natToBytes, if_neg h, List.map_reverse, List.reverse_reverse, List.map_map]
    have hmap : (Nat.digits 10 m).map ((fun b => b - 48) ∘ (fun d => d + 48)) =
        Nat.digits 10 m := by
      have hid : ∀ d ∈ Nat.digits 10 m, ((fun b => b - 48) ∘ (fun d => d + 48)) d = id d :=
        fun d _ => by simp
      rw [List.map_congr_left hid, List.map_id]
    rw [hmap, Nat.ofDigits_digits]

/-- Behaviour of `takeWhile` and `dropWhile` through a block of satisfying elements followed
by a failing one. -/
theorem takeWhile_dropWhile_block (p : Nat → Bool) (xs : List Nat) (y : Nat) (ys : List Nat)
    (hxs : ∀ x ∈ xs, p x = true) (hy : p y = false) :
    (xs ++ y :: ys).takeWhile p = xs ∧ (xs ++ y :: ys).dropWhile p = y :: ys := by
  induction xs with
  | nil => simp [List.takeWhile_cons, List.dropWhile_cons, hy]
  | cons x xs ih =>
    obtain ⟨ht, hd⟩ := ih fun x' hx' => hxs x' (by simp [hx'])
    refine ⟨?_, ?_⟩
    · rw [List.cons_append, List.takeWhile_cons, hxs x (by simp), ht]
      simp
    · rw [List.cons_append, List.dropWhile_cons, hxs x (by simp)]
      simpa using hd

/-- Parsing a rendered fixed-point amount returns the amount: the decimal
round-trip. -/
theorem parseDecimal_renderDecimal (v : Nat) :
    parseDecimal (renderDecimal v) = some v := by
  have hd1 : isDigitByte (v % 100 / 10 + 48) = true := by
    simp [isDigitByte]
    omega
  have hd2 : isDigitByte (v % 100 % 10 + 48) = true := by
    simp [isDigitByte]
    omega
  obtain ⟨htake, hdrop⟩ := takeWhile_dropWhile_block isDigitByte
    (natToBytes (v / 100)) 46 [v % 100 / 10 + 48, v % 100 % 10 + 48]
    (natToBytes_digits _) rfl
  rw [renderDecimal, parseDecimal]
  simp only [htake, hdrop, if_neg (natToBytes_ne_nil (v / 100)), hd1, hd2,
    Bool.and_self, if_pos, ofDigits_natToBytes]
  simp
  omega

/-- The rendered amount consists of bytes below 256 (digits and the dot). -/
theorem renderDecimal_lt (v : Nat) : ∀ b ∈ renderDecimal v, b < 256 := by
  intro b hb
  rw [renderDecimal] at hb
  rcases List.mem_append.mp hb with h | h
  · have := natToBytes_lt _ b h
    omega
  · simp at h
    rcases h with rfl | rfl | rfl <;> omega

/-- Size bound for the rendered digit string of a bounded number. -/
theorem natToBytes_len_le (m : Nat) (h : m < 10 ^ 9) : (natToBytes m).length ≤ 9 := by
  rw [natToBytes]
  by_cases h0 : m = 0
  · simp [h0]
  · rw [if_neg h0]
    simp only [List.length_reverse, List.length_map]
    rw [Nat.digits_len 10 m (by norm_num) h0]
    have := Nat.log_lt_of_lt_pow h0 h
    omega

/-- Size bound for a rendered amount: it always fits in one TLV value. -/
theorem renderDecimal_len_le (v : Nat) (h : v < 10 ^ 9) :
    (renderDecimal v).length ≤ 255 := by
  rw [renderDecimal]
  simp only [List.length_append, List.length_cons]
  have := natToBytes_len_le (v / 100) (by omega)
  simp
  omega

/-! ## C6: round trip -/

/-- C6: encoding a `ParsedInvoice`'s five core fields back into a TLV
sequence, base64-encoding it, and decoding the result reproduces identical
values for the three text fields and identical decimal values for the two
numeric fields.  The hypotheses are the representability conditions of the
wire format: text fields are valid UTF-8 byte sequences of at most 255
bytes (the seller name non-empty), and the two amounts fit the decimal
rendering of one TLV value. -/
theorem decode_encode_round_trip (inv : ParsedInvoice)
    (hs1 : inv.sellerName ≠ [])
    (hu1 : utf8Valid inv.sellerName = true)
    (hu2 : utf8Valid inv.vatNumber = true)
    (hu3 : utf8Valid inv.timestamp = true)
    (hb1 : ∀ b ∈ inv.sellerName, b < 256) (hl1 : inv.sellerName.length ≤ 255)
    (hb2 : ∀ b ∈ inv.vatNumber, b < 256) (hl2 : inv.vatNumber.length ≤ 255)
    (hb3 : ∀ b ∈ inv.timestamp, b < 256) (hl3 : inv.timestamp.length ≤ 255)
    (hn4 : inv.invoiceTotal < 10 ^ 9) (hn5 : inv.vatTotal < 10 ^ 9) :
    ∃ inv2, decodeQR (encodeBase64 (encodeInvoice inv)) = .ok inv2 ∧
      inv2.sellerName = inv.sellerName ∧
      inv2.vatNumber = inv.vatNumber ∧
      inv2.timestamp = inv.timestamp ∧
      inv2.invoiceTotal = inv.invoiceTotal ∧
      inv2.vatTotal = inv.vatTotal := by
  have hbne : encodeInvoice inv ≠ [] := by
    simp [encodeInvoice, tlvBytes]
  have step : ∀ (t : Nat) (v rest : List Nat), t < 256 → v.length ≤ 255 →
      (∀ b ∈ v, b < 256) → (∀ b ∈ rest, b < 256) →
      ∀ b ∈ tlvBytes t v ++ rest, b < 256 := by
    intro t v rest h1 h2 h3 h4 b hbm
    simp only [tlvBytes, List.cons_append, List.mem_cons, List.mem_append] at hbm
    rcases hbm with rfl | rfl | hbm | hbm
    · omega
    · omega
    · exact h3 b hbm
    · exact h4 b hbm
  have hbb : ∀ b ∈ encodeInvoice inv, b < 256 := by
    have hr4 := renderDecimal_lt inv.invoiceTotal
    have hr5 := renderDecimal_lt inv.vatTotal
    have hrl4 := renderDecimal_len_le inv.invoiceTotal hn4
    have hrl5 := renderDecimal_len_le inv.vatTotal hn5
    have h5 : ∀ b ∈ tlvBytes 5 (renderDecimal inv.vatTotal), b < 256 := by
      intro b hbm
      exact step 5 (renderDecimal inv.vatTotal) [] (by omega) hrl5 hr5 (by simp) b
        (by simp [hbm])
    rw [encodeInvoice]
    simp only [List.append_assoc]
    exact step 1 _ _ (by omega) hl1 hb1
      (step 2 _ _ (by omega) hl2 hb2
        (step 3 _ _ (by omega) hl3 hb3
          (step 4 _ _ (by omega) hrl4 hr4 h5)))
  have hblen : (encodeInvoice inv).length ≤ 3000 := by
    have hrl4 := renderDecimal_len_le inv.invoiceTotal hn4
    have hrl5 := renderDecimal_len_le inv.vatTotal hn5
    simp only [encodeInvoice, tlvBytes, List.length_append, List.length_cons]
    omega
  have hb64 : decodeBase64 (encodeBase64 (encodeInvoice inv)) = .ok (encodeInvoice inv) :=
    decodeBase64_encodeBase64 _ hbne hbb hblen
  have ht := tokenize_encodeInvoice inv
  have hm := mapFields_eval
    [⟨1, inv.sellerName⟩, ⟨2, inv.vatNumber⟩, ⟨3, inv.timestamp⟩,
      ⟨4, renderDecimal inv.invoiceTotal⟩, ⟨5, renderDecimal inv.vatTotal⟩]
    inv.sellerName inv.vatNumber inv.timestamp
    (renderDecimal inv.invoiceTotal) (renderDecimal inv.vatTotal)
    inv.invoiceTotal inv.vatTotal
    (by simp [findTag]) hu1 hs1
    (by simp [findTag]) hu2
    (by simp [findTag]) hu3
    (by simp [findTag]) (parseDecimal_renderDecimal _)
    (by simp [findTag]) (parseDecimal_renderDecimal _)
  have hd : decodeQR (encodeBase64 (encodeInvoice inv)) =
      mapFields [⟨1, inv.sellerName⟩, ⟨2, inv.vatNumber⟩, ⟨3, inv.timestamp⟩,
        ⟨4, renderDecimal inv.invoiceTotal⟩, ⟨5, renderDecimal inv.vatTotal⟩] := by
    rw [decodeQR, hb64]
    simp only [ht]
  exact ⟨_, hd.trans hm, rfl, rfl, rfl, rfl, rfl⟩

/-- C6 witness: the round trip applied to the spec's concrete example
invoice — seller `"Acme Corp"`, a 15-digit VAT number, timestamp text,
total `115.00` (11500 cents) and VAT `15.00` (1500 cents). -/
theorem decode_encode_round_trip_witness :
    ∃ inv2, decodeQR (encodeBase64 (encodeInvoice
        ⟨[65, 99, 109, 101, 32, 67, 111, 114, 112],
         [51, 48, 48, 48, 48, 48, 48, 48, 48, 48, 48, 48, 48, 48, 51],
         [50, 48, 50, 51], 11500, 1500, 10000, [], []⟩)) = .ok inv2 ∧
      inv2.sellerName = [65, 99, 109, 101, 32, 67, 111, 114, 112] ∧
      inv2.vatNumber = [51, 48, 48, 48, 48, 48, 48, 48, 48, 48, 48, 48, 48, 48, 51] ∧
      inv2.timestamp = [50, 48, 50, 51] ∧
      inv2.invoiceTotal = 11500 ∧
      inv2.vatTotal = 1500 :=
  decode_encode_round_trip
    ⟨[65, 99, 109, 101, 32, 67, 111, 114, 112],
     [51, 48, 48, 48, 48, 48, 48, 48, 48, 48, 48, 48, 48, 48, 51],
     [50, 48, 50, 51], 11500, 1500, 10000, [], []⟩
    (by decide) (by decide) (by decide) (by decide) (by decide) (by decide)
    (by decide) (by decide) (by decide) (by decide) (by norm_num) (by norm_num)
